import Mathlib

/-!
Shallow embedding of `renderer.py` from Flask-Shards.

Strings are modelled as `List Char`; Python's `-1`-returning `str.find` is
modelled over `Int` with Python's negative-start clamping; Python dicts are
insertion-ordered association lists; fallible operations (`dict[key]`,
`str.format`) return `Except PyErr`.
-/

abbrev Str := List Char

/-- Convert a Lean string literal to the `List Char` representation. -/
def chars (s : String) : Str := s.data

/-- The set of characters stripped by Python `str.strip()` (Unicode whitespace). -/
def isPySpace (c : Char) : Bool :=
  c ∈ ([' ', '\t', '\n', '\r', '\x0b', '\x0c',
        '\x1c', '\x1d', '\x1e', '\x1f', '\x85', '\xa0',
        '\u1680', '\u2000', '\u2001', '\u2002', '\u2003', '\u2004', '\u2005',
        '\u2006', '\u2007', '\u2008', '\u2009', '\u200a', '\u2028', '\u2029',
        '\u202f', '\u205f', '\u3000'] : List Char)

/-- Python `str.strip()`: drop leading and trailing whitespace. -/
def pyStrip (s : Str) : Str :=
  ((s.dropWhile isPySpace).reverse.dropWhile isPySpace).reverse

/-- `matchAt s pat i` holds when `pat` occurs in `s` starting at index `i`. -/
def matchAt (s pat : Str) (i : Nat) : Bool :=
  decide (i + pat.length ≤ s.length) && decide ((s.drop i).take pat.length = pat)

/-- All positions `i ≥ start` at which `pat` occurs in `s`, in increasing order. -/
def occPositions (s pat : Str) (start : Nat) : List Nat :=
  (List.range (s.length + 1)).filter fun i => decide (start ≤ i) && matchAt s pat i

/-- Python's clamping of the `start` argument of `str.find`: a negative start
counts from the end of the string and is clamped to `0`. -/
def clampStart (s : Str) (start : Int) : Nat :=
  if start < 0 then (max 0 ((s.length : Int) + start)).toNat else start.toNat

/-- Python `s.find(pat, start)`: least occurrence position at or after `start`,
or `-1` when there is none. -/
def strFind (s pat : Str) (start : Int) : Int :=
  match (occPositions s pat (clampStart s start)).head? with
  | some i => (i : Int)
  | none => -1

/-- Number of positions at which `pat` occurs in `s`. -/
def countSub (s pat : Str) : Nat := (occPositions s pat 0).length

/-- Python slicing `s[a:b]` (step 1), including negative-index semantics. -/
def pySlice (s : Str) (a b : Int) : Str :=
  let n := s.length
  let a' := (if a < 0 then max 0 ((n : Int) + a) else min a n).toNat
  let b' := (if b < 0 then max 0 ((n : Int) + b) else min b n).toNat
  (s.drop a').take (b' - a')

/-- Helper for Python `str.replace` with a nonempty pattern: scan left to
right, replacing non-overlapping occurrences; fuel bounds the recursion and
is never exhausted when it starts at the length of the subject string. -/
def replAux (old new : Str) : Nat → Str → Str
  | 0, s => s
  | _ + 1, [] => []
  | f + 1, c :: rest =>
    if ((c :: rest).take old.length) = old then
      new ++ replAux old new f ((c :: rest).drop old.length)
    else
      c :: replAux old new f rest

/-- Python `s.replace(old, new)`: replace every non-overlapping occurrence of
`old` in `s`, scanning left to right; an empty `old` inserts `new` between
every character (Python's behaviour, unreachable in this program). -/
def strReplace (s old new : Str) : Str :=
  if old = [] then new ++ s.foldr (fun c acc => c :: (new ++ acc)) []
  else replAux old new s.length s

-- Basic facts about `matchAt`, `occPositions` and `strFind`.

theorem matchAt_iff {s pat : Str} {i : Nat} :
    matchAt s pat i = true ↔ i + pat.length ≤ s.length ∧ (s.drop i).take pat.length = pat := by
  simp [matchAt]

theorem mem_occPositions {s pat : Str} {start i : Nat} :
    i ∈ occPositions s pat start ↔ start ≤ i ∧ matchAt s pat i = true := by
  constructor
  · intro h
    have h' := List.mem_filter.mp h
    have := h'.2
    simp only [Bool.and_eq_true, decide_eq_true_eq] at this
    exact this
  · intro ⟨h1, h2⟩
    refine List.mem_filter.mpr ⟨?_, ?_⟩
    · refine List.mem_range.mpr ?_
      have := (matchAt_iff.mp h2).1
      omega
    · simp only [Bool.and_eq_true, decide_eq_true_eq]
      exact ⟨h1, h2⟩

theorem occPositions_pairwise (s pat : Str) (start : Nat) :
    (occPositions s pat start).Pairwise (· < ·) :=
  List.Pairwise.filter _ (List.pairwise_lt_range _)

theorem head?_le_of_pairwise {l : List Nat} (hp : l.Pairwise (· < ·)) {a x : Nat}
    (hh : l.head? = some a) (hx : x ∈ l) : a ≤ x := by
  cases l with
  | nil => cases hx
  | cons b t =>
    simp only [List.head?_cons, Option.some.injEq] at hh
    subst hh
    rcases List.mem_cons.mp hx with h | h
    · omega
    · exact Nat.le_of_lt ((List.pairwise_cons.mp hp).1 x h)

/-- If `strFind` returns a nonnegative index, that index is an occurrence at
or after the (clamped) start, and is within the string. -/
theorem strFind_facts {s pat : Str} {start : Int} {i : Nat}
    (h : strFind s pat start = (i : Int)) :
    clampStart s start ≤ i ∧ matchAt s pat i = true ∧ i ≤ s.length := by
  unfold strFind at h
  cases hh : (occPositions s pat (clampStart s start)).head? with
  | none => rw [hh] at h; simp at h
  | some j =>
    rw [hh] at h
    have h' : (j : Int) = (i : Int) := h
    have hij : i = j := by exact_mod_cast h'.symm
    subst hij
    have hmem : i ∈ occPositions s pat (clampStart s start) :=
      List.mem_of_mem_head? (by rw [hh]; rfl)
    have hm := mem_occPositions.mp hmem
    have hlen := (matchAt_iff.mp hm.2).1
    exact ⟨hm.1, hm.2, by omega⟩

/-- `strFind` returns the least occurrence: nothing matches strictly before it. -/
theorem strFind_least {s pat : Str} {start : Int} {i j : Nat}
    (h : strFind s pat start = (i : Int))
    (hj1 : clampStart s start ≤ j) (hj2 : j < i) : matchAt s pat j = false := by
  by_contra hc
  have hmt : matchAt s pat j = true := by
    cases hq : matchAt s pat j
    · exact absurd hq hc
    · rfl
  have hmem : j ∈ occPositions s pat (clampStart s start) :=
    mem_occPositions.mpr ⟨hj1, hmt⟩
  unfold strFind at h
  cases hh : (occPositions s pat (clampStart s start)).head? with
  | none =>
    rw [hh] at h; simp at h
  | some a =>
    rw [hh] at h
    have h' : (a : Int) = (i : Int) := h
    have : i = a := by exact_mod_cast h'.symm
    subst this
    have := head?_le_of_pairwise (occPositions_pairwise s pat _) hh hmem
    omega

/-- Introduction rule: if `i` is an occurrence at or after the clamped start
and no earlier position at or after it matches, then `strFind` returns `i`. -/
theorem strFind_intro {s pat : Str} {start : Int} {i : Nat}
    (h1 : clampStart s start ≤ i) (h2 : matchAt s pat i = true)
    (h3 : ∀ j, clampStart s start ≤ j → j < i → matchAt s pat j = false) :
    strFind s pat start = (i : Int) := by
  have hmem : i ∈ occPositions s pat (clampStart s start) := mem_occPositions.mpr ⟨h1, h2⟩
  unfold strFind
  cases hh : (occPositions s pat (clampStart s start)).head? with
  | none =>
    rcases List.head?_eq_none_iff.mp hh with h
    rw [h] at hmem; cases hmem
  | some a =>
    have ha : a ∈ occPositions s pat (clampStart s start) :=
      List.mem_of_mem_head? (by rw [hh]; rfl)
    have hle : a ≤ i := head?_le_of_pairwise (occPositions_pairwise s pat _) hh hmem
    have hmm := mem_occPositions.mp ha
    have : a = i := by
      by_contra hne
      have : a < i := by omega
      have := h3 a hmm.1 this
      rw [hmm.2] at this; cases this
    subst this
    rfl

/-- If nothing matches at or after the clamped start, `strFind` returns `-1`. -/
theorem strFind_neg_intro {s pat : Str} {start : Int}
    (h : ∀ j, clampStart s start ≤ j → matchAt s pat j = false) :
    strFind s pat start = -1 := by
  unfold strFind
  cases hh : (occPositions s pat (clampStart s start)).head? with
  | none => rfl
  | some a =>
    have ha : a ∈ occPositions s pat (clampStart s start) :=
      List.mem_of_mem_head? (by rw [hh]; rfl)
    have hmm := mem_occPositions.mp ha
    have := h a hmm.1
    rw [hmm.2] at this; cases this

theorem clampStart_natCast (s : Str) (st : Nat) : clampStart s (st : Int) = st := by
  unfold clampStart
  simp

/-- Combined facts about a nonnegative `strFind` result. -/
theorem clampStart_ge (s : Str) (start : Int) : start ≤ (clampStart s start : Int) := by
  unfold clampStart
  split
  · have h0 : (0 : Int) ≤ max 0 ((s.length : Int) + start) := le_max_left _ _
    have h1 := Int.toNat_of_nonneg h0
    omega
  · omega

theorem strFind_nonneg_facts {s pat : Str} {start : Int} (h : 0 ≤ strFind s pat start) :
    start ≤ strFind s pat start ∧ strFind s pat start ≤ (s.length : Int) ∧
      matchAt s pat (strFind s pat start).toNat = true := by
  have hr : strFind s pat start = (((strFind s pat start).toNat : Nat) : Int) :=
    (Int.toNat_of_nonneg h).symm
  have hf := strFind_facts hr
  have hc := clampStart_ge s start
  refine ⟨?_, ?_, hf.2.1⟩ <;> omega

-- The data model of `renderer.py`.

/-- Python error values raised by the embedded operations. -/
inductive PyErr where
  | keyError (key : Str)
  | indexError
  | attributeError
  | valueError (msg : String)
  deriving DecidableEq

/-- Decidable equality for `Except`, used to settle concrete runs by `decide`. -/
instance {e a : Type} [DecidableEq e] [DecidableEq a] : DecidableEq (Except e a) := fun x y =>
  match x, y with
  | .ok v, .ok w =>
    if h : v = w then .isTrue (by rw [h]) else .isFalse (by intro hc; cases hc; exact h rfl)
  | .error v, .error w =>
    if h : v = w then .isTrue (by rw [h]) else .isFalse (by intro hc; cases hc; exact h rfl)
  | .ok _, .error _ => .isFalse (by intro hc; cases hc)
  | .error _, .ok _ => .isFalse (by intro hc; cases hc)

/-- Python dicts as insertion-ordered association lists with unique keys. -/
abbrev Dict := List (Str × Str)

/-- `d[k] = v` on a Python dict: update in place if present, else append. -/
def dictSet (d : Dict) (k v : Str) : Dict :=
  if d.any (fun kv => kv.1 == k) then d.map (fun kv => if kv.1 == k then (k, v) else kv)
  else d ++ [(k, v)]

/-- `d.get(k)` on a Python dict. -/
def lookupD (d : Dict) (k : Str) : Option Str :=
  (d.find? (fun kv => kv.1 == k)).map (fun kv => kv.2)

-- Embedding of CPython's format-string machinery (`str.format` and
-- `string.Formatter().parse`), restricted to string-valued arguments.

/-- One element of `Formatter().parse`: a literal run and, when a replacement
field follows it, the field's name, conversion and format spec. -/
structure Chunk where
  literal : Str
  field : Option (Str × Option Char × Str)
  deriving DecidableEq

/-- The field name of a chunk (`None` for a trailing literal-only chunk). -/
def Chunk.fieldName (c : Chunk) : Option Str := c.field.map (fun f => f.1)

/-- Scan the literal part of a format string up to the next markup: a doubled
brace ends the chunk with no field, a single open brace starts a field, and a
single close brace is a `ValueError`, exactly as in CPython's parser. -/
def scanLiteral : Str → Except PyErr (Str × Bool × Str)
  | [] => .ok ([], false, [])
  | '{' :: '{' :: r => .ok (['{'], false, r)
  | '}' :: '}' :: r => .ok (['}'], false, r)
  | '{' :: r => .ok ([], true, r)
  | '}' :: _ => .error (.valueError "single close brace encountered in format string")
  | c :: r => do
    let (l, f, r') ← scanLiteral r
    .ok (c :: l, f, r')

/-- Scan a replacement-field name up to `!`, `:` or the closing brace; inside
an index (`[...]`) nothing terminates until the closing bracket, and an open
brace in a field name is a `ValueError`, as in CPython. -/
def scanFieldName : Bool → Str → Except PyErr (Str × Char × Str)
  | _, [] => .error (.valueError "expected close brace before end of string")
  | true, ']' :: r => do
    let (n, t, r') ← scanFieldName false r
    .ok (']' :: n, t, r')
  | true, c :: r => do
    let (n, t, r') ← scanFieldName true r
    .ok (c :: n, t, r')
  | false, '{' :: _ => .error (.valueError "unexpected open brace in field name")
  | false, '[' :: r => do
    let (n, t, r') ← scanFieldName true r
    .ok ('[' :: n, t, r')
  | false, '}' :: r => .ok ([], '}', r)
  | false, ':' :: r => .ok ([], ':', r)
  | false, '!' :: r => .ok ([], '!', r)
  | false, c :: r => do
    let (n, t, r') ← scanFieldName false r
    .ok (c :: n, t, r')

/-- After `!`: read the single conversion character, which must be followed by
`:` (a format spec follows) or the closing brace. -/
def scanConversion : Str → Except PyErr (Option Char × Bool × Str)
  | [] => .error (.valueError "end of string while looking for conversion specifier")
  | c :: ':' :: r => .ok (some c, true, r)
  | c :: '}' :: r => .ok (some c, false, r)
  | _ => .error (.valueError "expected colon after conversion specifier")

/-- Scan a format spec with brace counting until the matching close brace. -/
def scanSpec : Nat → Str → Except PyErr (Str × Str)
  | _, [] => .error (.valueError "unmatched open brace in format spec")
  | 0, '}' :: r => .ok ([], r)
  | d + 1, '}' :: r => do
    let (sp, r') ← scanSpec d r
    .ok ('}' :: sp, r')
  | d, '{' :: r => do
    let (sp, r') ← scanSpec (d + 1) r
    .ok ('{' :: sp, r')
  | d, c :: r => do
    let (sp, r') ← scanSpec d r
    .ok (c :: sp, r')

/-- Parse one chunk of a format string, returning `none` at the end of input. -/
def parseChunk (s : Str) : Except PyErr (Option (Chunk × Str)) :=
  match s with
  | [] => .ok none
  | _ => do
    let (lit, follows, r) ← scanLiteral s
    if follows then do
      let (name, term, r') ← scanFieldName false r
      match term with
      | '}' => .ok (some (⟨lit, some (name, none, [])⟩, r'))
      | ':' => do
        let (spec, r'') ← scanSpec 0 r'
        .ok (some (⟨lit, some (name, none, spec)⟩, r''))
      | _ => do
        let (conv, specFollows, r'') ← scanConversion r'
        if specFollows then do
          let (spec, r3) ← scanSpec 0 r''
          .ok (some (⟨lit, some (name, conv, spec)⟩, r3))
        else .ok (some (⟨lit, some (name, conv, [])⟩, r''))
    else .ok (some (⟨lit, none⟩, r))

/-- CPython `string.Formatter().parse`, fuelled: each parsed chunk consumes at
least one character, so fuel `s.length + 1` is never exhausted. -/
def formatterParseAux : Nat → Str → Except PyErr (List Chunk)
  | 0, _ => .ok []
  | f + 1, s => do
    match ← parseChunk s with
    | none => .ok []
    | some (c, r) => do
      let rest ← formatterParseAux f r
      .ok (c :: rest)

/-- CPython `string.Formatter().parse` over a whole format string. -/
def formatterParse (s : Str) : Except PyErr (List Chunk) :=
  formatterParseAux (s.length + 1) s

/-- `get_field` of `str.format(**kwargs)` with string values and no positional
arguments: an empty or all-digit key is a positional reference and raises
`IndexError` (the argument tuple is empty); a named key is looked up in the
keyword dict, raising `KeyError` when absent; attribute or index access on the
string value (a name containing `.` or `[`) is outside the modelled subset and
mapped to an error. -/
def getField (fieldName : Str) (vars : Dict) : Except PyErr Str :=
  let key := fieldName.takeWhile fun c => !(c == '.' || c == '[')
  let rest := fieldName.drop key.length
  if key = [] ∨ key.all Char.isDigit then .error .indexError
  else
    match lookupD vars key with
    | none => .error (.keyError key)
    | some v => if rest = [] then .ok v else .error .attributeError

/-- `convert_field`: no conversion and `!s` are the identity on strings; `!r`
and `!a` (repr/ascii quoting) are outside the modelled subset. -/
def convertField : Option Char → Str → Except PyErr Str
  | none, v => .ok v
  | some 's', v => .ok v
  | some _, _ => .error (.valueError "conversion outside modelled subset")

/-- `format(value, spec)` for a string value: the empty spec and `s` are the
identity; other format specs are outside the modelled subset. -/
def formatValue (v : Str) (spec : Str) : Except PyErr Str :=
  if spec = [] then .ok v
  else if spec = ['s'] then .ok v
  else .error (.valueError "format spec outside modelled subset")

/-- `_vformat`: emit each literal run followed by its resolved field. -/
def renderChunks : List Chunk → Dict → Except PyErr Str
  | [], _ => .ok []
  | chunk :: rest, vars =>
    match chunk.field with
    | none => do
      let r ← renderChunks rest vars
      .ok (chunk.literal ++ r)
    | some (fname, conv, spec) => do
      let v ← getField fname vars
      let v2 ← convertField conv v
      let v3 ← formatValue v2 spec
      let r ← renderChunks rest vars
      .ok (chunk.literal ++ v3 ++ r)

/-- Python `s.format(**vars)` for string values. -/
def pyFormat (s : Str) (vars : Dict) : Except PyErr Str := do
  let chunks ← formatterParse s
  renderChunks chunks vars

/-- The ASCII fragment of the regex `\w` used by `extract_attributes`:
`[0-9A-Za-z_]`.  Python's `re` with a str pattern matches Unicode word
characters, so this model agrees with the program exactly on ASCII text and
only there; theorems that quantify over arbitrary attribute text therefore
carry an explicit all-ASCII hypothesis.  On ASCII, `isPySpace` likewise
coincides with `re`'s `\s`, so the whole attribute scan is exact. -/
def isWordChar (c : Char) : Bool := c.isAlphanum || c == '_'

/-- A `Shard` as in `renderer.py`: name, content and optional origin. -/
structure Shard where
  name : Str
  content : Str
  origin : Option Str := none
  deriving DecidableEq

/-- `Shard.render`: `self.content.format(**variables)` (the parameter is
named `variables` in the source; `variables` is reserved in Lean). -/
def Shard.render (sh : Shard) (variables' : Dict) : Except PyErr Str :=
  pyFormat sh.content variables' 

/-- `Shard.get_variables`: the field names of `Formatter().parse(self.content)`
that are not `None`, deduplicated (`list(set(...))`). -/
def Shard.get_variables (sh : Shard) : Except PyErr (List Str) := do
  let chunks ← formatterParse sh.content
  .ok ((chunks.filterMap Chunk.fieldName).dedup)

/-- A `ShardUse` as in `renderer.py`: the matched shard, the exact matched
substring, the variable bindings, and the origin. -/
structure ShardUse where
  shard : Shard
  use : Str
  variables' : Dict
  origin : Option Str := none
  deriving DecidableEq

/-- `ShardUse.render`: render the shard with the use's bindings. -/
def ShardUse.render (u : ShardUse) : Except PyErr Str :=
  u.shard.render u.variables'

/-- `ShardUse.apply`: `template.replace(self.use, self.render())`. -/
def ShardUse.apply (u : ShardUse) (template : Str) : Except PyErr Str := do
  let r ← u.render
  .ok (strReplace template u.use r)

/-- The literal opening marker of a shard definition. -/
def SHARD_OPEN : Str := chars "<shard "

/-- The literal closing marker of a shard definition. -/
def SHARD_CLOSE : Str := chars "</shard>"

/-- One attempted match of the regex `(\w+)\s*=\s*"([^"]*)"` at the head of
`s`: maximal-munch on each token is exact for this pattern because no token
can succeed on a character the previous greedy token gave back. -/
def tryAttr (s : Str) : Option (Str × Str × Str) :=
  let w := s.takeWhile isWordChar
  if w = [] then none
  else
    match (s.dropWhile isWordChar).dropWhile isPySpace with
    | '=' :: r2 =>
      match r2.dropWhile isPySpace with
      | '"' :: r3 =>
        let v := r3.takeWhile fun c => !(c == '"')
        match r3.dropWhile (fun c => !(c == '"')) with
        | '"' :: r4 => some (w, v, r4)
        | _ => none
      | _ => none
    | _ => none

/-- `re.findall` scan for the attribute pattern: attempt a match at each
position left to right, continuing after each match (non-overlapping); fuel
bounds the scan and `s.length` is always enough since every step consumes at
least one character. -/
def attrScan : Nat → Str → List (Str × Str)
  | 0, _ => []
  | _ + 1, [] => []
  | f + 1, c :: rest =>
    if isWordChar c then
      match tryAttr (c :: rest) with
      | some (k, v, r) => (k, v) :: attrScan f r
      | none => attrScan f rest
    else attrScan f rest

/-- `extract_attributes`: dict comprehension over the regex matches. -/
def extract_attributes (tag : Str) : Dict :=
  (attrScan tag.length tag).foldl (fun d kv => dictSet d kv.1 kv.2) []

/-- `get_shard_from_string`: read one shard definition out of `s`; looking up
the required `name` attribute raises `KeyError` when it is missing. -/
def get_shard_from_string (s : Str) (origin : Option Str := none) : Except PyErr Shard :=
  let start := strFind s SHARD_OPEN 0 + (SHARD_OPEN.length : Int)
  let e := strFind s (chars ">") start
  let attributes := extract_attributes (pySlice s start e)
  let content := pyStrip (pySlice s (e + 1) (strFind s SHARD_CLOSE 0))
  match lookupD attributes (chars "name") with
  | some n => .ok ⟨n, content, origin⟩
  | none => .error (.keyError (chars "name"))

/-- The extraction loop of `get_shards_from_string`: collect the raw text of
each definition, from each opening marker to the first closing marker after
it, stopping silently when either marker is missing.  Every iteration that
does not stop advances `start` past a closing marker (by at least its length,
with the marker ending within the string), so the fuel `s.length + 2` used by
`shardsLoop` is never exhausted. -/
def shardsLoopAux (s : Str) : Nat → Int → List Str
  | 0, _ => []
  | fuel + 1, start =>
    if strFind s SHARD_OPEN start < 0 ∨
        strFind s SHARD_CLOSE (strFind s SHARD_OPEN start) < 0 then []
    else
      pySlice s (strFind s SHARD_OPEN start)
          (strFind s SHARD_CLOSE (strFind s SHARD_OPEN start) + (SHARD_CLOSE.length : Int)) ::
        shardsLoopAux s fuel
          (strFind s SHARD_CLOSE (strFind s SHARD_OPEN start) + (SHARD_CLOSE.length : Int))

/-- The extraction loop of `get_shards_from_string`, from a given offset. -/
def shardsLoop (s : Str) (start : Int) : List Str :=
  shardsLoopAux s (s.length + 2) start

/-- `get_shards_from_string`: the extraction loop followed by the list
comprehension over `get_shard_from_string` (the first raised error aborts). -/
def get_shards_from_string (s : Str) (start : Int := 0) (origin : Option Str := none) :
    Except PyErr (List Shard) :=
  (shardsLoop s start).mapM (fun str_shard => get_shard_from_string str_shard origin)

/-- The `first_open` computed by one iteration of `find_corresponding_close`:
the least nonnegative find result over the open markers, else `-1`. -/
def fccFirstOpen (s : Str) (strs_open : List Str) (start : Nat) : Int :=
  match ((strs_open.map fun str_open => strFind s str_open (start : Int)).filter
      fun pos => decide (0 ≤ pos)).min? with
  | some m => m
  | none => -1

/-- The `while level > 0` loop of `find_corresponding_close`.  Each iteration
either returns or strictly advances `start`, which never exceeds
`s.length + 1`, so the fuel `s.length + 2` used by `find_corresponding_close`
is never exhausted (this is proved as the stabilisation theorem below). -/
def fccAux (s : Str) (strs_open : List Str) (str_close : Str) : Nat → Nat → Nat → Int
  | 0, _, _ => -1
  | fuel + 1, level, start =>
    if strFind s str_close (start : Int) < 0 then -1
    else if fccFirstOpen s strs_open start < strFind s str_close (start : Int) ∧
        (start : Int) ≤ fccFirstOpen s strs_open start then
      fccAux s strs_open str_close fuel (level + 1) ((fccFirstOpen s strs_open start).toNat + 1)
    else if level = 1 then strFind s str_close (start : Int)
    else fccAux s strs_open str_close fuel (level - 1)
      ((strFind s str_close (start : Int)).toNat + 1)

/-- `find_corresponding_close`: depth-aware search for the closing marker,
starting at depth 1. -/
def find_corresponding_close (s : Str) (strs_open : List Str) (str_close : Str)
    (start : Nat := 0) : Int :=
  fccAux s strs_open str_close (s.length + 2) 1 start

/-- `find_shard_in_template`: locate the first use of `shard` at or after
`start`, trying the attribute form `<name ` and the bare form `<name>`,
then the depth-aware close search, then the variable bindings. -/
def find_shard_in_template (template : Str) (shard : Shard) (start : Nat)
    (origin : Option Str := none) : Option ShardUse × Int :=
  let shard_open_with_variables : Str := '<' :: (shard.name ++ [' '])
  let shard_open_without_variables : Str := '<' :: (shard.name ++ ['>'])
  let first_open_with_variables := strFind template shard_open_with_variables (start : Int)
  let first_open_without_variables := strFind template shard_open_without_variables (start : Int)
  if first_open_with_variables < 0 ∧ first_open_without_variables < 0 then (none, -1)
  else
    let has_variables : Bool := decide (0 ≤ first_open_with_variables) &&
      (decide (first_open_with_variables < first_open_without_variables) ||
        decide (first_open_without_variables < 0))
    let first_open := if has_variables then first_open_with_variables
      else first_open_without_variables
    let shard_open := if has_variables then shard_open_with_variables
      else shard_open_without_variables
    let shard_close : Str := '<' :: '/' :: (shard.name ++ ['>'])
    let first_close := find_corresponding_close template
      [shard_open_with_variables, shard_open_without_variables] shard_close
      (first_open.toNat + shard_open.length)
    if first_close < 0 ∨ first_open > first_close then (none, -1)
    else
      let variables' :=
        if has_variables then
          let variables_start := first_open + (shard_open.length : Int)
          let variables_end := strFind template (chars ">") variables_start
          dictSet (extract_attributes (pySlice template variables_start variables_end))
            (chars "content") (pySlice template (variables_end + 1) first_close)
        else
          [(chars "content", pySlice template (first_open + (shard_open.length : Int)) first_close)]
      let shard_end := first_close + (shard_close.length : Int)
      (some ⟨shard, pySlice template first_open shard_end, variables', origin⟩, shard_end)

/-- The `while start >= 0` loop of `render_template` for one shard, also
recording the `start` offset passed to each `find_shard_in_template` call.
The loop can genuinely diverge in Python (a shard whose rendering duplicates
its own use), so it is fuelled; exhausted fuel returns the current template. -/
def renderLoopT (shard : Shard) (origin : Option Str) :
    Nat → Str → Int → Except PyErr Str × List Int
  | 0, template, _ => (.ok template, [])
  | fuel + 1, template, start =>
    if start < 0 then (.ok template, [])
    else
      match find_shard_in_template template shard start.toNat origin with
      | (some use, next) =>
        match use.apply template with
        | .ok t' =>
          let r := renderLoopT shard origin fuel t' next
          (r.1, start :: r.2)
        | .error e => (.error e, [start])
      | (none, next) =>
        let r := renderLoopT shard origin fuel template next
        (r.1, start :: r.2)

/-- The per-shard loop of `render_template` (result only). -/
def renderLoop (shard : Shard) (origin : Option Str) (fuel : Nat) (template : Str)
    (start : Int) : Except PyErr Str :=
  (renderLoopT shard origin fuel template start).1

/-- `render_template`: for each shard in catalog order, repeatedly find and
substitute uses until the matcher reports no use; `fuel` bounds each loop. -/
def render_template (fuel : Nat) (template : Str) (shards : List Shard)
    (origin : Option Str := none) : Except PyErr Str :=
  shards.foldlM (fun t shard => renderLoop shard origin fuel t 0) template

-- Fuel stabilisation for the per-shard expansion loop: the recorded trace is
-- one offset per loop iteration, so a trace shorter than the fuel means the
-- loop exited before the fuel ran out, and more fuel cannot change anything.

theorem renderLoopT_succ (shard : Shard) (origin : Option Str) (fuel : Nat) (t : Str)
    (s : Int) :
    renderLoopT shard origin (fuel + 1) t s =
      if s < 0 then (.ok t, [])
      else
        match find_shard_in_template t shard s.toNat origin with
        | (some use, next) =>
          match use.apply t with
          | .ok t' =>
            ((renderLoopT shard origin fuel t' next).1,
              s :: (renderLoopT shard origin fuel t' next).2)
          | .error e => (.error e, [s])
        | (none, next) =>
          ((renderLoopT shard origin fuel t next).1,
            s :: (renderLoopT shard origin fuel t next).2) := rfl

theorem renderLoopT_succ_stable (shard : Shard) (origin : Option Str) :
    ∀ fuel (t : Str) (s : Int),
      (renderLoopT shard origin fuel t s).2.length < fuel →
      renderLoopT shard origin (fuel + 1) t s = renderLoopT shard origin fuel t s := by
  intro fuel
  induction fuel with
  | zero => intro t s h; simp at h
  | succ f ih =>
    intro t s h
    rw [renderLoopT_succ shard origin f t s] at h
    rw [renderLoopT_succ shard origin (f + 1) t s, renderLoopT_succ shard origin f t s]
    by_cases hs : s < 0
    · simp [hs]
    · simp only [if_neg hs] at h ⊢
      cases hf : find_shard_in_template t shard s.toNat origin with
      | mk use? next =>
        rw [hf] at h
        cases use? with
        | some u =>
          cases ha : u.apply t with
          | ok t' =>
            simp only [ha] at h ⊢
            have h' : (renderLoopT shard origin f t' next).2.length < f := by
              simp at h; omega
            rw [ih t' next h']
          | error e => simp only [ha]
        | none =>
          simp only [] at h ⊢
          have h' : (renderLoopT shard origin f t next).2.length < f := by
            simp at h; omega
          rw [ih t next h']

theorem renderLoopT_stable (shard : Shard) (origin : Option Str) (fuel k : Nat) (t : Str)
    (s : Int) (h : (renderLoopT shard origin fuel t s).2.length < fuel) :
    renderLoopT shard origin (fuel + k) t s = renderLoopT shard origin fuel t s := by
  induction k with
  | zero => rfl
  | succ j ihj =>
    have he : fuel + (j + 1) = (fuel + j) + 1 := rfl
    rw [he, renderLoopT_succ_stable shard origin (fuel + j) t s (by rw [ihj]; omega), ihj]

/-- C1: on the template `<foo a="1">X<foo>Y</foo>Z</foo>` and shard `foo`, the
matcher at offset 0 returns a use whose matched substring is the whole
template, with bindings `a = "1"` and `content = "X<foo>Y</foo>Z"`, and next
offset 31, one past the final `</foo>`: the depth counter treats the inner
`<foo>...</foo>` as nesting, so only the final `</foo>` closes the use. -/
theorem c1_nested_use_whole_template :
    find_shard_in_template (chars "<foo a=\"1\">X<foo>Y</foo>Z</foo>")
        ⟨chars "foo", chars "x", none⟩ 0 none =
      (some ⟨⟨chars "foo", chars "x", none⟩, chars "<foo a=\"1\">X<foo>Y</foo>Z</foo>",
        [(chars "a", chars "1"), (chars "content", chars "X<foo>Y</foo>Z")], none⟩, 31) ∧
    (chars "<foo a=\"1\">X<foo>Y</foo>Z</foo>").length = 31 := by
  decide

/-- C2 counterexample: rendering `<g>A</g><g>B</g>` with shard `g`, the trace
of start offsets passed to the use matcher is `[0, 8]`, not all zeros: after
substituting the use found at offset 0, the search resumes at the returned
offset 8 of the updated template, and the second use, now at offset 1, is
missed, so the output keeps `<g>B</g>` unexpanded. -/
theorem c2_counterexample_search_not_restarted :
    (renderLoopT ⟨chars "g", chars "X", none⟩ none 5 (chars "<g>A</g><g>B</g>") 0).2 = [0, 8] ∧
    ¬ (∀ off ∈ (renderLoopT ⟨chars "g", chars "X", none⟩ none 5
        (chars "<g>A</g><g>B</g>") 0).2, off = 0) ∧
    render_template 5 (chars "<g>A</g><g>B</g>") [⟨chars "g", chars "X", none⟩] none =
      .ok (chars "X<g>B</g>") := by
  decide

/-- C2 (amended): in `render_template`, only the first search per shard uses
offset 0; after a use found at `start` is substituted, the next matcher call
uses the offset returned by the previous call (just past that use in the
pre-substitution template), as recorded in the offset trace. -/
theorem c2_amended_resume_from_returned_offset (shard : Shard) (origin : Option Str)
    (fuel : Nat) (template : Str) (start : Int) (use : ShardUse) (next : Int) (t' : Str)
    (hs : 0 ≤ start)
    (hfind : find_shard_in_template template shard start.toNat origin = (some use, next))
    (happly : use.apply template = .ok t') :
    renderLoopT shard origin (fuel + 1) template start =
      ((renderLoopT shard origin fuel t' next).1,
        start :: (renderLoopT shard origin fuel t' next).2) := by
  rw [renderLoopT_succ, if_neg (by omega)]
  simp only [hfind, happly]

theorem c2_amended_witness :
    find_shard_in_template (chars "<g>A</g><g>B</g>") ⟨chars "g", chars "X", none⟩
        ((0 : Int)).toNat none =
      (some ⟨⟨chars "g", chars "X", none⟩, chars "<g>A</g>", [(chars "content", chars "A")],
        none⟩, 8) ∧
    ShardUse.apply ⟨⟨chars "g", chars "X", none⟩, chars "<g>A</g>",
        [(chars "content", chars "A")], none⟩ (chars "<g>A</g><g>B</g>") =
      .ok (chars "X<g>B</g>") ∧
    renderLoopT ⟨chars "g", chars "X", none⟩ none 2 (chars "<g>A</g><g>B</g>") 0 =
      ((renderLoopT ⟨chars "g", chars "X", none⟩ none 1 (chars "X<g>B</g>") 8).1,
        0 :: (renderLoopT ⟨chars "g", chars "X", none⟩ none 1 (chars "X<g>B</g>") 8).2) :=
  ⟨by decide, by decide,
    c2_amended_resume_from_returned_offset ⟨chars "g", chars "X", none⟩ none 1
      (chars "<g>A</g><g>B</g>") 0
      ⟨⟨chars "g", chars "X", none⟩, chars "<g>A</g>", [(chars "content", chars "A")], none⟩
      8 (chars "X<g>B</g>") (by omega) (by decide) (by decide)⟩

/-- C3: on template `<g>A</g> and <g>A</g>` with shard `g` of content
`[{content}]`, the matcher finds the use `<g>A</g>` and one application of
`ShardUse.apply` (a replace-all of the literal matched text) already rewrites
both byte-identical uses, yielding `[A] and [A]`; the full expansion returns
the same string, for any fuel at least the three loop iterations used. -/
theorem c3_identical_uses_replaced_together :
    find_shard_in_template (chars "<g>A</g> and <g>A</g>")
        ⟨chars "g", chars "[{content}]", none⟩ 0 none =
      (some ⟨⟨chars "g", chars "[{content}]", none⟩, chars "<g>A</g>",
        [(chars "content", chars "A")], none⟩, 8) ∧
    ShardUse.apply ⟨⟨chars "g", chars "[{content}]", none⟩, chars "<g>A</g>",
        [(chars "content", chars "A")], none⟩ (chars "<g>A</g> and <g>A</g>") =
      .ok (chars "[A] and [A]") ∧
    ∀ k, render_template (3 + k) (chars "<g>A</g> and <g>A</g>")
        [⟨chars "g", chars "[{content}]", none⟩] none = .ok (chars "[A] and [A]") := by
  refine ⟨by decide, by decide, ?_⟩
  intro k
  have hst := renderLoopT_stable ⟨chars "g", chars "[{content}]", none⟩ none 3 k
    (chars "<g>A</g> and <g>A</g>") 0 (by decide)
  simp only [render_template, List.foldlM_cons, List.foldlM_nil, renderLoop, hst]
  decide

/-- C4: expansion is a single pass per shard in catalog order with no
cross-shard fixed point.  With `outer` expanding to `<inner>X</inner>`:
in catalog order `[outer, inner]` the injected `inner` use is expanded
(output `[X]`), while in order `[inner, outer]` the injected markup
`<inner>X</inner>` is left verbatim in the output. -/
theorem c4_single_pass_order_dependent :
    (∀ k, render_template (3 + k) (chars "<outer>B</outer>")
        [⟨chars "outer", chars "<inner>X</inner>", none⟩,
         ⟨chars "inner", chars "[{content}]", none⟩] none = .ok (chars "[X]")) ∧
    (∀ k, render_template (3 + k) (chars "<outer>B</outer>")
        [⟨chars "inner", chars "[{content}]", none⟩,
         ⟨chars "outer", chars "<inner>X</inner>", none⟩] none =
      .ok (chars "<inner>X</inner>")) := by
  constructor <;> intro k
  · have h1 := renderLoopT_stable ⟨chars "outer", chars "<inner>X</inner>", none⟩ none 3 k
      (chars "<outer>B</outer>") 0 (by decide)
    have h2 := renderLoopT_stable ⟨chars "inner", chars "[{content}]", none⟩ none 3 k
      (chars "<inner>X</inner>") 0 (by decide)
    simp only [render_template, List.foldlM_cons, List.foldlM_nil, renderLoop, h1]
    rw [show ((renderLoopT ⟨chars "outer", chars "<inner>X</inner>", none⟩ none 3
      (chars "<outer>B</outer>") 0).1) = .ok (chars "<inner>X</inner>") from by decide]
    show (renderLoopT ⟨chars "inner", chars "[{content}]", none⟩ none (3 + k)
      (chars "<inner>X</inner>") 0).1 >>= _ = _
    rw [h2]
    decide
  · have h1 := renderLoopT_stable ⟨chars "inner", chars "[{content}]", none⟩ none 3 k
      (chars "<outer>B</outer>") 0 (by decide)
    have h2 := renderLoopT_stable ⟨chars "outer", chars "<inner>X</inner>", none⟩ none 3 k
      (chars "<outer>B</outer>") 0 (by decide)
    simp only [render_template, List.foldlM_cons, List.foldlM_nil, renderLoop, h1]
    rw [show ((renderLoopT ⟨chars "inner", chars "[{content}]", none⟩ none 3
      (chars "<outer>B</outer>") 0).1) = .ok (chars "<outer>B</outer>") from by decide]
    show (renderLoopT ⟨chars "outer", chars "<inner>X</inner>", none⟩ none (3 + k)
      (chars "<outer>B</outer>") 0).1 >>= _ = _
    rw [h2]
    decide

theorem shardsLoopAux_succ (s : Str) (fuel : Nat) (start : Int) :
    shardsLoopAux s (fuel + 1) start =
      if strFind s SHARD_OPEN start < 0 ∨
          strFind s SHARD_CLOSE (strFind s SHARD_OPEN start) < 0 then []
      else
        pySlice s (strFind s SHARD_OPEN start)
            (strFind s SHARD_CLOSE (strFind s SHARD_OPEN start) + (SHARD_CLOSE.length : Int)) ::
          shardsLoopAux s fuel
            (strFind s SHARD_CLOSE (strFind s SHARD_OPEN start) + (SHARD_CLOSE.length : Int)) :=
  rfl

/-- C8: if an opening marker `<shard ` found by the scan has no closing marker
`</shard>` anywhere at or after it, the scan for further definitions returns
successfully with no shards at all from that point: no error is raised, no
shard is produced for the unterminated definition, and nothing after it is
scanned.  Concretely, a complete definition followed by an unterminated one
loads exactly the complete one, silently. -/
theorem c8_unterminated_definition_silent :
    (∀ (s : Str) (start : Int) (origin : Option Str) (i : Nat),
      strFind s SHARD_OPEN start = (i : Int) →
      strFind s SHARD_CLOSE (i : Int) = -1 →
      get_shards_from_string s start origin = .ok []) ∧
    get_shards_from_string (chars "<shard name=\"a\">x</shard><shard name=\"b\">y") 0 none =
      .ok [⟨chars "a", chars "x", none⟩] := by
  constructor
  · intro s start origin i hfo hfc
    unfold get_shards_from_string shardsLoop
    have hnil : shardsLoopAux s (s.length + 2) start = [] := by
      rw [show s.length + 2 = (s.length + 1) + 1 from rfl, shardsLoopAux_succ, hfo, hfc]
      simp
    rw [hnil]
    rfl
  · decide

theorem c8_witness :
    strFind (chars "A <shard name=\"a\">x") SHARD_OPEN 0 = ((2 : Nat) : Int) ∧
    strFind (chars "A <shard name=\"a\">x") SHARD_CLOSE ((2 : Nat) : Int) = -1 ∧
    get_shards_from_string (chars "A <shard name=\"a\">x") 0 none = .ok [] :=
  ⟨by decide, by decide,
    c8_unterminated_definition_silent.1 (chars "A <shard name=\"a\">x") 0 none 2
      (by decide) (by decide)⟩

theorem fccAux_succ (s : Str) (strs_open : List Str) (str_close : Str) (fuel level : Nat)
    (start : Nat) :
    fccAux s strs_open str_close (fuel + 1) level start =
      if strFind s str_close (start : Int) < 0 then -1
      else if fccFirstOpen s strs_open start < strFind s str_close (start : Int) ∧
          (start : Int) ≤ fccFirstOpen s strs_open start then
        fccAux s strs_open str_close fuel (level + 1) ((fccFirstOpen s strs_open start).toNat + 1)
      else if level = 1 then strFind s str_close (start : Int)
      else fccAux s strs_open str_close fuel (level - 1)
        ((strFind s str_close (start : Int)).toNat + 1) :=
  rfl

/-- A find whose start lies beyond the end of the string reports no match. -/
theorem strFind_gt_len {s pat : Str} {st : Int} (h : (s.length : Int) < st) :
    strFind s pat st = -1 := by
  apply strFind_neg_intro
  intro j hj
  cases hm : matchAt s pat j
  · rfl
  · exfalso
    have h1 := (matchAt_iff.mp hm).1
    have hc : clampStart s st = st.toNat := by
      unfold clampStart
      rw [if_neg (by omega)]
    rw [hc] at hj
    omega

/-- Fuel above `s.length + 2 - start` is irrelevant to `fccAux`: every
iteration either returns or strictly increases `start`, which stays at most
`s.length + 1`, so the loop runs out of string before it runs out of fuel. -/
theorem fccAux_add_fuel (s : Str) (strs_open : List Str) (str_close : Str) (extra : Nat) :
    ∀ fuel level start, s.length + 2 ≤ fuel + start →
      fccAux s strs_open str_close (fuel + extra) level start =
        fccAux s strs_open str_close fuel level start := by
  intro fuel
  induction fuel with
  | zero =>
    intro level start h
    cases extra with
    | zero => rfl
    | succ e =>
      rw [show 0 + (e + 1) = e + 1 from by omega, fccAux_succ]
      rw [strFind_gt_len (by simp at h ⊢; omega)]
      norm_num
      rfl
  | succ f ih =>
    intro level start h
    rw [show (f + 1) + extra = (f + extra) + 1 from by omega, fccAux_succ, fccAux_succ]
    by_cases hc : strFind s str_close (start : Int) < 0
    · rw [if_pos hc, if_pos hc]
    · rw [if_neg hc, if_neg hc]
      by_cases ho : fccFirstOpen s strs_open start < strFind s str_close (start : Int) ∧
          (start : Int) ≤ fccFirstOpen s strs_open start
      · rw [if_pos ho, if_pos ho]
        exact ih (level + 1) ((fccFirstOpen s strs_open start).toNat + 1) (by omega)
      · rw [if_neg ho, if_neg ho]
        by_cases hl : level = 1
        · rw [if_pos hl, if_pos hl]
        · rw [if_neg hl, if_neg hl]
          have hnn : 0 ≤ strFind s str_close (start : Int) := by omega
          have hf := strFind_nonneg_facts hnn
          have hcs := clampStart_ge s (start : Int)
          exact ih (level - 1) ((strFind s str_close (start : Int)).toNat + 1) (by omega)

/-- C10: `find_corresponding_close` terminates on every input: its scan
position strictly increases on every iteration that does not return and never
exceeds `s.length + 1`, so the loop stabilises within `s.length + 2`
iterations — running the loop with any amount of extra fuel returns exactly
`find_corresponding_close s strs_open str_close start`. -/
theorem c10_find_corresponding_close_total (s : Str) (strs_open : List Str)
    (str_close : Str) (start : Nat) (extra : Nat) :
    fccAux s strs_open str_close (s.length + 2 + extra) 1 start =
      find_corresponding_close s strs_open str_close start := by
  unfold find_corresponding_close
  exact fccAux_add_fuel s strs_open str_close extra (s.length + 2) 1 start (by omega)


/-- A replacement field in the plain named form the renderer relies on: a
nonempty name that is not positional (not all digits), no attribute or index
access, no conversion, empty format spec.  Literal-only chunks are plain. -/
def plainFieldB : Option (Str × Option Char × Str) → Bool
  | none => true
  | some (nm, conv, spec) =>
    decide (nm ≠ []) && nm.all (fun c => !(c == '.' || c == '[')) &&
      !(nm.all Char.isDigit) && decide (conv = none) && decide (spec = [])

theorem getField_of_plain {nm : Str} (vars : Dict)
    (hnm : nm ≠ []) (hdot : ∀ c ∈ nm, (!(c == '.' || c == '[')) = true)
    (hdig : nm.all Char.isDigit = false) :
    getField nm vars = match lookupD vars nm with
      | none => .error (.keyError nm)
      | some v => .ok v := by
  unfold getField
  have hkey : nm.takeWhile (fun c => !(c == '.' || c == '[')) = nm :=
    List.takeWhile_eq_self_iff.mpr hdot
  simp only [hkey, List.drop_length]
  rw [if_neg (by simp [hnm, hdig])]
  cases lookupD vars nm with
  | none => rfl
  | some v => rfl

/-- If some plain named field of the chunk list is unbound, rendering the
chunks raises `KeyError` for an unbound name. -/
theorem renderChunks_unbound :
    ∀ (cs : List Chunk) (vars : Dict),
      (∀ c ∈ cs, plainFieldB c.field = true) →
      (∃ c ∈ cs, ∃ nm cv sp, c.field = some (nm, cv, sp) ∧ lookupD vars nm = none) →
      ∃ key, renderChunks cs vars = .error (.keyError key) ∧ lookupD vars key = none := by
  intro cs
  induction cs with
  | nil =>
    intro vars _ hex
    rcases hex with ⟨c, hc, _⟩
    cases hc
  | cons c rest ih =>
    intro vars hp hex
    cases hcf : c.field with
    | none =>
      have hex' : ∃ c' ∈ rest, ∃ nm cv sp, c'.field = some (nm, cv, sp) ∧
          lookupD vars nm = none := by
        rcases hex with ⟨c', hc', nm, cv, sp, hf, hl⟩
        rcases List.mem_cons.mp hc' with rfl | hmem
        · rw [hcf] at hf; cases hf
        · exact ⟨c', hmem, nm, cv, sp, hf, hl⟩
      rcases ih vars (fun c' hc' => hp c' (List.mem_cons_of_mem _ hc')) hex' with ⟨key, hkey, hlk⟩
      refine ⟨key, ?_, hlk⟩
      simp only [renderChunks, hcf, hkey]
      rfl
    | some fld =>
      obtain ⟨nm, cv, sp⟩ := fld
      have hpc : (decide (nm ≠ []) && nm.all (fun c => !(c == '.' || c == '[')) &&
          !(nm.all Char.isDigit) && decide (cv = none) && decide (sp = [])) = true := by
        have := hp c (List.mem_cons_self _ _)
        rw [hcf] at this
        exact this
      simp only [Bool.and_eq_true] at hpc
      obtain ⟨⟨⟨⟨h1, h2⟩, h3⟩, h4⟩, h5⟩ := hpc
      have hnm : nm ≠ [] := of_decide_eq_true h1
      have hdot : ∀ x ∈ nm, (!(x == '.' || x == '[')) = true := List.all_eq_true.mp h2
      have hdig : nm.all Char.isDigit = false := by rwa [Bool.not_eq_true'] at h3
      have hcv : cv = none := of_decide_eq_true h4
      have hsp : sp = [] := of_decide_eq_true h5
      have hgf := getField_of_plain vars hnm hdot hdig
      cases hlv : lookupD vars nm with
      | none =>
        refine ⟨nm, ?_, hlv⟩
        rw [hlv] at hgf
        simp only [renderChunks, hcf, hgf]
        rfl
      | some v =>
        have hex' : ∃ c' ∈ rest, ∃ nm' cv' sp', c'.field = some (nm', cv', sp') ∧
            lookupD vars nm' = none := by
          rcases hex with ⟨c', hc', nm', cv', sp', hf, hl⟩
          rcases List.mem_cons.mp hc' with rfl | hmem
          · rw [hcf] at hf
            simp only [Option.some.injEq, Prod.mk.injEq] at hf
            obtain ⟨he1, -, -⟩ := hf
            rw [← he1] at hl
            rw [hl] at hlv
            cases hlv
          · exact ⟨c', hmem, nm', cv', sp', hf, hl⟩
        rcases ih vars (fun c' hc' => hp c' (List.mem_cons_of_mem _ hc')) hex' with
          ⟨key, hkey, hlk⟩
        refine ⟨key, ?_, hlk⟩
        subst hcv hsp
        rw [hlv] at hgf
        simp only [renderChunks, hcf, hgf, convertField, formatValue, if_pos, hkey]
        rfl

theorem lookupD_map_set (d : Dict) (k v : Str)
    (hany : d.any (fun kv => kv.1 == k) = true) :
    lookupD (d.map (fun kv => if kv.1 == k then (k, v) else kv)) k = some v := by
  induction d with
  | nil => simp at hany
  | cons kv rest ih =>
    simp only [List.any_cons, Bool.or_eq_true] at hany
    simp only [List.map_cons]
    by_cases hk : (kv.1 == k) = true
    · rw [if_pos hk]
      unfold lookupD
      rw [List.find?_cons_of_pos _ (by simp)]
      rfl
    · rw [if_neg hk]
      unfold lookupD at ih ⊢
      rw [List.find?_cons_of_neg _ (by simpa using hk)]
      exact ih (hany.resolve_left hk)

theorem lookupD_append_single (d : Dict) (k v : Str)
    (hnone : d.any (fun kv => kv.1 == k) = false) :
    lookupD (d ++ [(k, v)]) k = some v := by
  induction d with
  | nil =>
    unfold lookupD
    rw [List.nil_append, List.find?_cons_of_pos _ (by simp)]
    rfl
  | cons kv rest ih =>
    simp only [List.any_cons, Bool.or_eq_true] at hnone
    have hk : (kv.1 == k) = false := by
      cases hq : (kv.1 == k)
      · rfl
      · rw [hq] at hnone; simp at hnone
    have hrest : rest.any (fun kv => kv.1 == k) = false := by
      cases hq : rest.any (fun kv => kv.1 == k)
      · rfl
      · rw [hq] at hnone; simp at hnone
    unfold lookupD at ih ⊢
    rw [List.cons_append, List.find?_cons_of_neg _ (by simp [hk])]
    exact ih hrest

/-- `dict[k] = v` makes `k` bound to `v` whatever the dict held before. -/
theorem lookupD_dictSet_self (d : Dict) (k v : Str) :
    lookupD (dictSet d k v) k = some v := by
  unfold dictSet
  cases hany : d.any (fun kv => kv.1 == k) with
  | true => rw [if_pos rfl]; exact lookupD_map_set d k v hany
  | false => rw [if_neg (by simp)]; exact lookupD_append_single d k v hany

/-- Every use returned by the matcher binds `content`. -/
theorem find_use_binds_content (template : Str) (shard : Shard) (start : Nat)
    (origin : Option Str) (u : ShardUse) (next : Int)
    (h : find_shard_in_template template shard start origin = (some u, next)) :
    ∃ v, lookupD u.variables' (chars "content") = some v := by
  unfold find_shard_in_template at h
  dsimp only at h
  split at h
  · exact absurd h (by simp)
  · split at h <;>
      · split at h
        · exact absurd h (by simp)
        · cases h
          first
            | exact ⟨_, lookupD_dictSet_self _ _ _⟩
            | exact ⟨_, by
                unfold lookupD
                rw [List.find?_cons_of_pos _ (by simp)]
                rfl⟩

/-- C7: rendering the shard content `Hello {name}` with binding
`name = "World"` yields `Hello World`; whenever the content parses into plain
named replacement fields and some field has no binding, rendering fails with
a `KeyError` naming an unbound placeholder; and the placeholder `content` is
exempt because every use returned by the matcher binds it (possibly to the
empty string). -/
theorem c7_unbound_placeholder_error :
    Shard.render ⟨chars "greet", chars "Hello {name}", none⟩
        [(chars "name", chars "World")] = .ok (chars "Hello World") ∧
    (∀ (sh : Shard) (vars : Dict) (cl : List Chunk),
      formatterParse sh.content = .ok cl →
      (∀ c ∈ cl, plainFieldB c.field = true) →
      (∃ c ∈ cl, ∃ nm cv sp, c.field = some (nm, cv, sp) ∧ lookupD vars nm = none) →
      ∃ key, Shard.render sh vars = .error (.keyError key) ∧ lookupD vars key = none) ∧
    (∀ (template : Str) (shard : Shard) (start : Nat) (origin : Option Str)
      (u : ShardUse) (next : Int),
      find_shard_in_template template shard start origin = (some u, next) →
      ∃ v, lookupD u.variables' (chars "content") = some v) := by
  refine ⟨by decide, ?_, find_use_binds_content⟩
  intro sh vars cl hparse hp hex
  rcases renderChunks_unbound cl vars hp hex with ⟨key, hk, hl⟩
  refine ⟨key, ?_, hl⟩
  unfold Shard.render pyFormat
  rw [hparse]
  exact hk

theorem c7_witness :
    Shard.render ⟨chars "greet", chars "Hello {name}", none⟩
        [(chars "name", chars "World")] = .ok (chars "Hello World") ∧
    (∃ key, Shard.render ⟨chars "greet", chars "Hello {name}", none⟩ [] =
        .error (.keyError key) ∧ lookupD [] key = none) ∧
    (∃ v, lookupD (⟨⟨chars "p", chars "", none⟩, chars "<p></p>",
        [(chars "content", chars "")], none⟩ : ShardUse).variables' (chars "content") =
      some v) :=
  ⟨c7_unbound_placeholder_error.1,
    c7_unbound_placeholder_error.2.1 ⟨chars "greet", chars "Hello {name}", none⟩ []
      [⟨chars "Hello ", some (chars "name", none, [])⟩] (by decide) (by decide)
      ⟨⟨chars "Hello ", some (chars "name", none, [])⟩, List.mem_cons_self _ _,
        chars "name", none, [], rfl, rfl⟩,
    c7_unbound_placeholder_error.2.2 (chars "<p></p>") ⟨chars "p", chars "", none⟩ 0 none
      ⟨⟨chars "p", chars "", none⟩, chars "<p></p>", [(chars "content", chars "")], none⟩ 7
      (by decide)⟩

/-- C9 counterexample: for the content `a{}b` the unnamed positional marker
`{}` is not ignored: the formatter parser reports its field name as the empty
string (only a trailing literal-only segment has field name `None`), so
`get_variables` returns `[""]`, where the claim predicts the empty set. -/
theorem c9_counterexample_positional_marker_included :
    formatterParse (chars "a{}b") =
      .ok [⟨chars "a", some ([], none, [])⟩, ⟨chars "b", none⟩] ∧
    Shard.get_variables ⟨chars "s", chars "a{}b", none⟩ = .ok [([] : Str)] := by
  decide

/-- C9 (amended): when the content parses, `get_variables` returns a list of
unique names that contains exactly the field names of the replacement fields
of the content — including the empty string contributed by unnamed positional
markers; only segments with no replacement field (field name `None`)
contribute nothing. -/
theorem c9_amended_get_variables (sh : Shard) (cl : List Chunk)
    (h : formatterParse sh.content = .ok cl) :
    ∃ l, Shard.get_variables sh = .ok l ∧ l.Nodup ∧
      ∀ x : Str, x ∈ l ↔ some x ∈ cl.map Chunk.fieldName := by
  refine ⟨(cl.filterMap Chunk.fieldName).dedup, ?_, List.nodup_dedup _, ?_⟩
  · unfold Shard.get_variables
    rw [h]
    rfl
  · intro x
    rw [List.mem_dedup, List.mem_filterMap]
    constructor
    · rintro ⟨c, hc, hf⟩
      exact List.mem_map.mpr ⟨c, hc, hf⟩
    · intro h'
      rcases List.mem_map.mp h' with ⟨c, hc, hf⟩
      exact ⟨c, hc, hf⟩

theorem c9_amended_witness :
    ∃ l, Shard.get_variables ⟨chars "s", chars "a{}b", none⟩ = .ok l ∧ l.Nodup ∧
      ∀ x : Str, x ∈ l ↔
        some x ∈ ([⟨chars "a", some ([], none, [])⟩, ⟨chars "b", none⟩] : List Chunk).map
          Chunk.fieldName :=
  c9_amended_get_variables ⟨chars "s", chars "a{}b", none⟩
    [⟨chars "a", some ([], none, [])⟩, ⟨chars "b", none⟩] (by decide)

-- Occurrence lemmas for patterns embedded in concatenations, used to settle
-- the catalog-loading claims for arbitrary surrounding text.

theorem matchAt_append_mid (x pat y : Str) :
    matchAt (x ++ pat ++ y) pat x.length = true := by
  apply matchAt_iff.mpr
  constructor
  · simp [List.length_append]
  · rw [List.append_assoc, List.drop_left, List.take_left]

theorem matchAt_append_end (x pat : Str) :
    matchAt (x ++ pat) pat x.length = true := by
  have := matchAt_append_mid x pat []
  simpa using this

theorem matchAt_append_right {x pat : Str} {j : Nat} (y : Str)
    (h : matchAt x pat j = true) : matchAt (x ++ y) pat j = true := by
  obtain ⟨h1, h2⟩ := matchAt_iff.mp h
  apply matchAt_iff.mpr
  constructor
  · simp [List.length_append]; omega
  · rw [List.drop_append_eq_append_drop, List.take_append_eq_append_take]
    have hd : pat.length - (x.drop j).length = 0 := by
      simp [List.length_drop]; omega
    rw [hd, List.take_zero, List.append_nil, h2]

theorem matchAt_shift {y pat : Str} {j : Nat} (x : Str)
    (h : matchAt y pat j = true) : matchAt (x ++ y) pat (x.length + j) = true := by
  obtain ⟨h1, h2⟩ := matchAt_iff.mp h
  apply matchAt_iff.mpr
  constructor
  · simp [List.length_append]; omega
  · rw [List.drop_append_eq_append_drop, List.drop_eq_nil_of_le (by omega),
      List.nil_append, show x.length + j - x.length = j from by omega, h2]

theorem singleton_match_mem {x y z : Str} {c : Char} {j : Nat}
    (h : matchAt (x ++ y ++ z) [c] j = true)
    (h1 : x.length ≤ j) (h2 : j < x.length + y.length) : c ∈ y := by
  obtain ⟨hb, ht⟩ := matchAt_iff.mp h
  rw [List.append_assoc, List.drop_append_eq_append_drop,
    List.drop_eq_nil_of_le (by omega), List.nil_append,
    List.drop_append_eq_append_drop, List.take_append_eq_append_take] at ht
  simp only [List.length_singleton] at ht
  have hy : 1 ≤ (y.drop (j - x.length)).length := by
    simp [List.length_drop]; omega
  have hz : (1 : Nat) - (y.drop (j - x.length)).length = 0 := by omega
  rw [hz, List.take_zero, List.append_nil] at ht
  have hc1 : c ∈ (y.drop (j - x.length)).take 1 := by rw [ht]; exact List.mem_cons_self _ _
  exact List.drop_subset _ _ (List.take_subset _ _ hc1)

theorem pySlice_append (x y z : Str) :
    pySlice (x ++ y ++ z) (x.length : Int) (((x.length + y.length : Nat) : Nat) : Int) = y := by
  unfold pySlice
  dsimp only
  rw [if_neg (by omega), if_neg (by omega)]
  have hn : (x ++ y ++ z).length = x.length + y.length + z.length := by
    simp [List.length_append]; omega
  have ha : (min (x.length : Int) (((x ++ y ++ z).length : Nat) : Int)).toNat = x.length := by
    rw [hn]; push_cast; omega
  have hb : (min (((x.length + y.length : Nat) : Nat) : Int)
      (((x ++ y ++ z).length : Nat) : Int)).toNat = x.length + y.length := by
    rw [hn]; push_cast; omega
  rw [ha, hb, List.append_assoc, List.drop_left,
    show x.length + y.length - x.length = y.length from by omega,
    List.take_left]

theorem countSub_unique {s pat : Str} {i j : Nat} (h1 : countSub s pat = 1)
    (hi : matchAt s pat i = true) (hj : matchAt s pat j = true) : j = i := by
  have hmi : i ∈ occPositions s pat 0 := mem_occPositions.mpr ⟨Nat.zero_le _, hi⟩
  have hmj : j ∈ occPositions s pat 0 := mem_occPositions.mpr ⟨Nat.zero_le _, hj⟩
  unfold countSub at h1
  rcases List.length_eq_one.mp h1 with ⟨a, ha⟩
  rw [ha] at hmi hmj
  simp only [List.mem_singleton] at hmi hmj
  omega

theorem shardsLoopAux_nil {s : Str} {start : Int}
    (h : strFind s SHARD_OPEN start < 0 ∨
      strFind s SHARD_CLOSE (strFind s SHARD_OPEN start) < 0) :
    ∀ fuel, shardsLoopAux s fuel start = [] := by
  intro fuel
  cases fuel with
  | zero => rfl
  | succ f => rw [shardsLoopAux_succ, if_pos h]

theorem pySlice_append' (x y z : Str) (a b : Int) (ha : a = (x.length : Int))
    (hb : b = (x.length : Int) + (y.length : Int)) : pySlice (x ++ y ++ z) a b = y := by
  subst ha hb
  have := pySlice_append x y z
  have hc : (((x.length + y.length : Nat) : Nat) : Int) = (x.length : Int) + (y.length : Int) := by
    push_cast; ring
  rw [hc] at this
  exact this

/-- The extraction loop on a string containing exactly one definition
`<shard A>b</shard>` (open marker occurring once, first close marker at the
definition's end) collects exactly that definition's text. -/
theorem shardsLoop_single_def (p A b q : Str)
    (hopen : countSub (p ++ SHARD_OPEN ++ A ++ ['>'] ++ b ++ SHARD_CLOSE ++ q) SHARD_OPEN = 1)
    (hclose : strFind (p ++ SHARD_OPEN ++ A ++ ['>'] ++ b ++ SHARD_CLOSE ++ q) SHARD_CLOSE
        ((p.length : Nat) : Int) = ((p.length + 7 + A.length + 1 + b.length : Nat) : Int)) :
    shardsLoop (p ++ SHARD_OPEN ++ A ++ ['>'] ++ b ++ SHARD_CLOSE ++ q) 0 =
      [SHARD_OPEN ++ A ++ ['>'] ++ b ++ SHARD_CLOSE] := by
  have h7 : SHARD_OPEN.length = 7 := rfl
  have h8 : SHARD_CLOSE.length = 8 := rfl
  have hmo : matchAt (p ++ SHARD_OPEN ++ A ++ ['>'] ++ b ++ SHARD_CLOSE ++ q) SHARD_OPEN
      p.length = true := by
    have := matchAt_append_mid p SHARD_OPEN (A ++ ['>'] ++ b ++ SHARD_CLOSE ++ q)
    simp only [List.append_assoc, List.singleton_append] at this ⊢
    exact this
  have hfo : strFind (p ++ SHARD_OPEN ++ A ++ ['>'] ++ b ++ SHARD_CLOSE ++ q) SHARD_OPEN 0 =
      ((p.length : Nat) : Int) := by
    apply strFind_intro
    · simp [clampStart]
    · exact hmo
    · intro j hj1 hj2
      cases hq2 : matchAt (p ++ SHARD_OPEN ++ A ++ ['>'] ++ b ++ SHARD_CLOSE ++ q) SHARD_OPEN j
      · rfl
      · exact absurd (countSub_unique hopen hmo hq2) (by omega)
  unfold shardsLoop
  rw [show (p ++ SHARD_OPEN ++ A ++ ['>'] ++ b ++ SHARD_CLOSE ++ q).length + 2 =
      ((p ++ SHARD_OPEN ++ A ++ ['>'] ++ b ++ SHARD_CLOSE ++ q).length + 1) + 1 from rfl,
    shardsLoopAux_succ, hfo, hclose]
  rw [if_neg (by omega)]
  have hD : (SHARD_OPEN ++ A ++ ['>'] ++ b ++ SHARD_CLOSE).length =
      7 + A.length + 1 + b.length + 8 := by
    simp [List.length_append, h7, h8]
    omega
  have hslice : pySlice (p ++ SHARD_OPEN ++ A ++ ['>'] ++ b ++ SHARD_CLOSE ++ q)
      ((p.length : Nat) : Int)
      (((p.length + 7 + A.length + 1 + b.length : Nat) : Int) + (SHARD_CLOSE.length : Int)) =
      SHARD_OPEN ++ A ++ ['>'] ++ b ++ SHARD_CLOSE := by
    have heq : p ++ SHARD_OPEN ++ A ++ ['>'] ++ b ++ SHARD_CLOSE ++ q =
        p ++ (SHARD_OPEN ++ A ++ ['>'] ++ b ++ SHARD_CLOSE) ++ q := by
      simp [List.append_assoc]
    rw [heq]
    apply pySlice_append'
    · push_cast; ring
    · rw [hD, h8]; push_cast; ring
  rw [hslice]
  have hcast : ((p.length + 7 + A.length + 1 + b.length : Nat) : Int) +
      (SHARD_CLOSE.length : Int) =
      ((p.length + 7 + A.length + 1 + b.length + 8 : Nat) : Int) := by
    rw [h8]; push_cast; ring
  have hno : strFind (p ++ SHARD_OPEN ++ A ++ ['>'] ++ b ++ SHARD_CLOSE ++ q) SHARD_OPEN
      (((p.length + 7 + A.length + 1 + b.length : Nat) : Int) + (SHARD_CLOSE.length : Int)) =
      -1 := by
    rw [hcast]
    apply strFind_neg_intro
    intro j hj
    rw [clampStart_natCast] at hj
    cases hq2 : matchAt (p ++ SHARD_OPEN ++ A ++ ['>'] ++ b ++ SHARD_CLOSE ++ q) SHARD_OPEN j
    · rfl
    · exact absurd (countSub_unique hopen hmo hq2) (by omega)
  rw [shardsLoopAux_nil (Or.inl (by rw [hno]; omega))]

/-- Transfer of the close-marker position from the whole source string to the
extracted definition text. -/
theorem close_find_in_def (p A b q : Str)
    (hclose : strFind (p ++ SHARD_OPEN ++ A ++ ['>'] ++ b ++ SHARD_CLOSE ++ q) SHARD_CLOSE
        ((p.length : Nat) : Int) = ((p.length + 7 + A.length + 1 + b.length : Nat) : Int)) :
    strFind (SHARD_OPEN ++ A ++ ['>'] ++ b ++ SHARD_CLOSE) SHARD_CLOSE 0 =
      ((7 + A.length + 1 + b.length : Nat) : Int) := by
  have h7 : SHARD_OPEN.length = 7 := rfl
  apply strFind_intro
  · simp [clampStart]
  · have hmm := matchAt_append_end (SHARD_OPEN ++ A ++ ['>'] ++ b) SHARD_CLOSE
    have hlen : (SHARD_OPEN ++ A ++ ['>'] ++ b).length = 7 + A.length + 1 + b.length := by
      simp [List.length_append, h7]
      omega
    rw [hlen] at hmm
    simp only [List.append_assoc, List.singleton_append] at hmm ⊢
    exact hmm
  · intro j hj1 hj2
    cases hq2 : matchAt (SHARD_OPEN ++ A ++ ['>'] ++ b ++ SHARD_CLOSE) SHARD_CLOSE j
    · rfl
    · exfalso
      have t1 : matchAt ((SHARD_OPEN ++ A ++ ['>'] ++ b ++ SHARD_CLOSE) ++ q) SHARD_CLOSE j =
          true := matchAt_append_right q hq2
      have t2 : matchAt (p ++ ((SHARD_OPEN ++ A ++ ['>'] ++ b ++ SHARD_CLOSE) ++ q))
          SHARD_CLOSE (p.length + j) = true := matchAt_shift p t1
      have t3 : matchAt (p ++ SHARD_OPEN ++ A ++ ['>'] ++ b ++ SHARD_CLOSE ++ q) SHARD_CLOSE
          (p.length + j) = true := by
        simp only [List.append_assoc, List.singleton_append] at t2 ⊢
        exact t2
      have hlt := strFind_least hclose (j := p.length + j)
        (by rw [clampStart_natCast]; omega) (by omega)
      rw [t3] at hlt
      cases hlt

/-- `get_shard_from_string` on one definition's text `<shard A>b</shard>`:
the attributes come from `A`, the stored content is `b` stripped, and the
result is the shard (or `KeyError` when `A` has no `name`). -/
theorem get_shard_of_def (A b : Str) (hg : '>' ∉ A)
    (hc : strFind (SHARD_OPEN ++ A ++ ['>'] ++ b ++ SHARD_CLOSE) SHARD_CLOSE 0 =
      ((7 + A.length + 1 + b.length : Nat) : Int)) :
    get_shard_from_string (SHARD_OPEN ++ A ++ ['>'] ++ b ++ SHARD_CLOSE) none =
      match lookupD (extract_attributes A) (chars "name") with
      | some nm => .ok ⟨nm, pyStrip b, none⟩
      | none => .error (.keyError (chars "name")) := by
  have h7 : SHARD_OPEN.length = 7 := rfl
  have hfo : strFind (SHARD_OPEN ++ A ++ ['>'] ++ b ++ SHARD_CLOSE) SHARD_OPEN 0 =
      ((0 : Nat) : Int) := by
    apply strFind_intro
    · simp [clampStart]
    · have hmm := matchAt_append_mid [] SHARD_OPEN (A ++ ['>'] ++ b ++ SHARD_CLOSE)
      simp only [List.nil_append, List.length_nil, List.append_assoc,
        List.singleton_append] at hmm ⊢
      exact hmm
    · intro j hj1 hj2
      exact absurd hj2 (by omega)
  have hgt : strFind (SHARD_OPEN ++ A ++ ['>'] ++ b ++ SHARD_CLOSE) (chars ">")
      (((0 : Nat) : Int) + (SHARD_OPEN.length : Int)) = ((7 + A.length : Nat) : Int) := by
    have harg : ((0 : Nat) : Int) + (SHARD_OPEN.length : Int) = (((7 : Nat) : Nat) : Int) := by
      simp [h7]
    rw [harg]
    apply strFind_intro
    · rw [clampStart_natCast]; omega
    · have hmm := matchAt_append_mid (SHARD_OPEN ++ A) ['>'] (b ++ SHARD_CLOSE)
      have hlen : (SHARD_OPEN ++ A).length = 7 + A.length := by
        simp [List.length_append, h7]
      rw [hlen] at hmm
      rw [show (chars ">") = ['>'] from rfl]
      simp only [List.append_assoc, List.singleton_append] at hmm ⊢
      exact hmm
    · intro j hj1 hj2
      rw [clampStart_natCast] at hj1
      cases hq2 : matchAt (SHARD_OPEN ++ A ++ ['>'] ++ b ++ SHARD_CLOSE) (chars ">") j
      · rfl
      · exfalso
        have hshape : SHARD_OPEN ++ A ++ ['>'] ++ b ++ SHARD_CLOSE =
            (SHARD_OPEN ++ A) ++ (['>'] ++ b ++ SHARD_CLOSE) := by
          simp [List.append_assoc]
        have hq2' : matchAt (SHARD_OPEN ++ A ++ (['>'] ++ b ++ SHARD_CLOSE)) ['>'] j = true := by
          rw [show (chars ">") = ['>'] from rfl] at hq2
          simp only [List.append_assoc, List.singleton_append] at hq2 ⊢
          exact hq2
        have hq3 : matchAt ((SHARD_OPEN ++ A) ++ (['>'] ++ b ++ SHARD_CLOSE)) ['>'] j =
            true := by
          simp only [List.append_assoc, List.singleton_append] at hq2' ⊢
          exact hq2'
        exact hg (singleton_match_mem hq3 (by omega) (by omega))
  unfold get_shard_from_string
  dsimp only
  rw [hfo, hgt, hc]
  have hslice1 : pySlice (SHARD_OPEN ++ A ++ ['>'] ++ b ++ SHARD_CLOSE)
      (((0 : Nat) : Int) + (SHARD_OPEN.length : Int)) ((7 + A.length : Nat) : Int) = A := by
    have hshape : SHARD_OPEN ++ A ++ ['>'] ++ b ++ SHARD_CLOSE =
        SHARD_OPEN ++ A ++ (['>'] ++ b ++ SHARD_CLOSE) := by
      simp [List.append_assoc]
    rw [hshape]
    apply pySlice_append'
    · simp [h7]
    · simp [h7, List.length_append]
  have hslice2 : pySlice (SHARD_OPEN ++ A ++ ['>'] ++ b ++ SHARD_CLOSE)
      (((7 + A.length : Nat) : Int) + 1) ((7 + A.length + 1 + b.length : Nat) : Int) = b := by
    have hshape : SHARD_OPEN ++ A ++ ['>'] ++ b ++ SHARD_CLOSE =
        (SHARD_OPEN ++ A ++ ['>']) ++ b ++ SHARD_CLOSE := by
      simp [List.append_assoc]
    rw [hshape]
    have hL : ((SHARD_OPEN ++ A ++ ['>']).length : Int) = 7 + (A.length : Int) + 1 := by
      simp [List.length_append, h7]
      push_cast
      ring
    apply pySlice_append'
    · rw [hL]; push_cast; ring
    · rw [hL]; push_cast; ring
  rw [hslice1, hslice2]

theorem attrScan_nil : ∀ f, attrScan f [] = [] := by
  intro f
  cases f <;> rfl

theorem attrScan_succ_cons (f : Nat) (c : Char) (rest : Str) :
    attrScan (f + 1) (c :: rest) =
      if isWordChar c then
        match tryAttr (c :: rest) with
        | some (k, v, r) => (k, v) :: attrScan f r
        | none => attrScan f rest
      else attrScan f rest := rfl

/-- The regex attempt at the head of `name="n"` matches, with key `name` and
value `n`, consuming the whole text, provided `n` has no quote. -/
theorem tryAttr_name (n : Str) (hq : '"' ∉ n) :
    tryAttr ('n' :: 'a' :: 'm' :: 'e' :: '=' :: '"' :: (n ++ ['"'])) =
      some (chars "name", n, []) := by
  have hball : ∀ a ∈ n, (!(a == '"')) = true := by
    intro a ha
    simp only [Bool.not_eq_true']
    exact beq_eq_false_iff_ne.mpr (fun hcontra => hq (hcontra ▸ ha))
  unfold tryAttr
  rw [show List.takeWhile isWordChar ('n' :: 'a' :: 'm' :: 'e' :: '=' :: '"' :: (n ++ ['"'])) =
      ['n', 'a', 'm', 'e'] from by simp +decide [List.takeWhile_cons]]
  rw [if_neg (by decide)]
  rw [show List.dropWhile isWordChar ('n' :: 'a' :: 'm' :: 'e' :: '=' :: '"' :: (n ++ ['"'])) =
      '=' :: '"' :: (n ++ ['"']) from by simp +decide [List.dropWhile_cons]]
  simp only [show List.dropWhile isPySpace ('=' :: '"' :: (n ++ ['"'])) =
      '=' :: '"' :: (n ++ ['"']) from by simp +decide [List.dropWhile_cons],
    show List.dropWhile isPySpace ('"' :: (n ++ ['"'])) = '"' :: (n ++ ['"']) from by
      simp +decide [List.dropWhile_cons],
    List.takeWhile_append_of_pos (fun a ha => hball a ha),
    List.dropWhile_append_of_pos (fun a ha => hball a ha),
    show List.takeWhile (fun c => !(c == '"')) ['"'] = [] from by decide,
    show List.dropWhile (fun c => !(c == '"')) ['"'] = ['"'] from by decide,
    List.append_nil]
  rfl

/-- `extract_attributes` on the open-tag text `name="n"`: exactly the binding
`name = n`, for any quote-free `n`. -/
theorem extract_attributes_name (n : Str) (hq : '"' ∉ n) :
    extract_attributes (chars "name=\"" ++ n ++ ['"']) = [(chars "name", n)] := by
  unfold extract_attributes
  have hA : chars "name=\"" ++ n ++ ['"'] = 'n' :: 'a' :: 'm' :: 'e' :: '=' :: '"' :: (n ++ ['"']) := by
    rw [show chars "name=\"" = ['n', 'a', 'm', 'e', '=', '"'] from rfl]
    simp [List.append_assoc]
  rw [hA]
  have hlen : ('n' :: 'a' :: 'm' :: 'e' :: '=' :: '"' :: (n ++ ['"'])).length = (n.length + 6) + 1 := by
    simp
  rw [hlen, attrScan_succ_cons, if_pos (by decide), tryAttr_name n hq]
  simp [attrScan_nil, dictSet]

theorem mapM_single {g : Str → Except PyErr Shard} {d : Str} {sh : Shard} (h : g d = .ok sh) :
    List.mapM g [d] = .ok [sh] := by
  simp [List.mapM, List.mapM.loop, h]

theorem mapM_single_err {g : Str → Except PyErr Shard} {d : Str} {e : PyErr}
    (h : g d = .error e) : List.mapM g [d] = .error e := by
  simp [List.mapM, List.mapM.loop, h]

/-- C5: a source string containing exactly one valid shard definition
`<shard name="n">b</shard>` — one occurrence of the opening marker, the first
closing marker after it closing this definition, a quote-free and
bracket-free name — loads to exactly one `Shard` named `n` whose content is
the body with surrounding whitespace stripped. -/
theorem c5_single_definition_loaded (p n b q : Str)
    (hq : '"' ∉ n) (hg : '>' ∉ n)
    (hopen : countSub (p ++ SHARD_OPEN ++ (chars "name=\"" ++ n ++ ['"']) ++ ['>'] ++ b ++
        SHARD_CLOSE ++ q) SHARD_OPEN = 1)
    (hclose : strFind (p ++ SHARD_OPEN ++ (chars "name=\"" ++ n ++ ['"']) ++ ['>'] ++ b ++
        SHARD_CLOSE ++ q) SHARD_CLOSE ((p.length : Nat) : Int) =
      ((p.length + 7 + (chars "name=\"" ++ n ++ ['"']).length + 1 + b.length : Nat) : Int)) :
    get_shards_from_string (p ++ SHARD_OPEN ++ (chars "name=\"" ++ n ++ ['"']) ++ ['>'] ++ b ++
        SHARD_CLOSE ++ q) 0 none = .ok [⟨n, pyStrip b, none⟩] := by
  have hgA : '>' ∉ (chars "name=\"" ++ n ++ ['"']) := by
    intro hmem
    simp only [List.append_assoc, List.mem_append, List.mem_singleton] at hmem
    rcases hmem with h | h | h
    · exact absurd h (by decide)
    · exact hg h
    · exact absurd h (by decide)
  unfold get_shards_from_string
  rw [shardsLoop_single_def p (chars "name=\"" ++ n ++ ['"']) b q hopen hclose]
  have hc := close_find_in_def p (chars "name=\"" ++ n ++ ['"']) b q hclose
  have hshard : get_shard_from_string
      (SHARD_OPEN ++ (chars "name=\"" ++ n ++ ['"']) ++ ['>'] ++ b ++ SHARD_CLOSE) none =
      .ok ⟨n, pyStrip b, none⟩ := by
    rw [get_shard_of_def (chars "name=\"" ++ n ++ ['"']) b hgA hc,
      extract_attributes_name n hq]
    rfl
  exact mapM_single hshard

theorem c5_witness :
    '"' ∉ chars "x" ∧ '>' ∉ chars "x" ∧
    countSub (chars "A " ++ SHARD_OPEN ++ (chars "name=\"" ++ chars "x" ++ ['"']) ++ ['>'] ++
      chars " hi " ++ SHARD_CLOSE ++ chars "Z") SHARD_OPEN = 1 ∧
    strFind (chars "A " ++ SHARD_OPEN ++ (chars "name=\"" ++ chars "x" ++ ['"']) ++ ['>'] ++
      chars " hi " ++ SHARD_CLOSE ++ chars "Z") SHARD_CLOSE
      (((chars "A ").length : Nat) : Int) =
      ((((chars "A ").length + 7 + (chars "name=\"" ++ chars "x" ++ ['"']).length + 1 +
        (chars " hi ").length : Nat)) : Int) ∧
    get_shards_from_string (chars "A " ++ SHARD_OPEN ++
      (chars "name=\"" ++ chars "x" ++ ['"']) ++ ['>'] ++ chars " hi " ++ SHARD_CLOSE ++
      chars "Z") 0 none = .ok [⟨chars "x", chars "hi", none⟩] := by
  refine ⟨by decide, by decide, by decide, by decide, ?_⟩
  rw [c5_single_definition_loaded (chars "A ") (chars "x") (chars " hi ") (chars "Z")
    (by decide) (by decide) (by decide) (by decide)]
  decide

/-- C6: a source string whose single shard definition has an open tag with no
`name` attribute fails to load, raising the `KeyError` for `name`: no shard
is silently produced and the load of that string aborts with the error.
The open-tag text `A` is restricted to ASCII because the embedded attribute
scanner models the ASCII fragment of `re`'s Unicode `\w` (see `isWordChar`);
on ASCII the model's `extract_attributes` coincides with the program's
`re.findall`, so "no `name` binding" below means the same in both. -/
theorem c6_missing_name_fails (p A b q : Str)
    (hascii : ∀ c ∈ A, c.toNat < 128)
    (hgA : '>' ∉ A)
    (hname : lookupD (extract_attributes A) (chars "name") = none)
    (hopen : countSub (p ++ SHARD_OPEN ++ A ++ ['>'] ++ b ++ SHARD_CLOSE ++ q)
      SHARD_OPEN = 1)
    (hclose : strFind (p ++ SHARD_OPEN ++ A ++ ['>'] ++ b ++ SHARD_CLOSE ++ q) SHARD_CLOSE
        ((p.length : Nat) : Int) =
      ((p.length + 7 + A.length + 1 + b.length : Nat) : Int)) :
    get_shards_from_string (p ++ SHARD_OPEN ++ A ++ ['>'] ++ b ++ SHARD_CLOSE ++ q) 0 none =
      .error (.keyError (chars "name")) := by
  unfold get_shards_from_string
  rw [shardsLoop_single_def p A b q hopen hclose]
  have hc := close_find_in_def p A b q hclose
  have hshard : get_shard_from_string (SHARD_OPEN ++ A ++ ['>'] ++ b ++ SHARD_CLOSE) none =
      .error (.keyError (chars "name")) := by
    rw [get_shard_of_def A b hgA hc, hname]
  exact mapM_single_err hshard

theorem c6_witness :
    (∀ c ∈ chars "foo=\"1\"", c.toNat < 128) ∧
    '>' ∉ chars "foo=\"1\"" ∧
    lookupD (extract_attributes (chars "foo=\"1\"")) (chars "name") = none ∧
    countSub (chars "P" ++ SHARD_OPEN ++ chars "foo=\"1\"" ++ ['>'] ++ chars "b" ++
      SHARD_CLOSE ++ chars "Q") SHARD_OPEN = 1 ∧
    strFind (chars "P" ++ SHARD_OPEN ++ chars "foo=\"1\"" ++ ['>'] ++ chars "b" ++
      SHARD_CLOSE ++ chars "Q") SHARD_CLOSE (((chars "P").length : Nat) : Int) =
      ((((chars "P").length + 7 + (chars "foo=\"1\"").length + 1 +
        (chars "b").length : Nat)) : Int) ∧
    get_shards_from_string (chars "P" ++ SHARD_OPEN ++ chars "foo=\"1\"" ++ ['>'] ++
      chars "b" ++ SHARD_CLOSE ++ chars "Q") 0 none =
      .error (.keyError (chars "name")) :=
  ⟨by decide, by decide, by decide, by decide, by decide,
    c6_missing_name_fails (chars "P") (chars "foo=\"1\"") (chars "b") (chars "Q")
      (by decide) (by decide) (by decide) (by decide) (by decide)⟩
